import Mathlib

/-!
Shallow embedding of the JavadocToMarkdown converter
(`JavadocToMarkdown.py`).  The converter extracts `/** ... */` doc-comment
blocks together with the declaration that follows each one, splits every
block into a description and a list of `@`-tags, classifies the tags into
named groups under a fixed policy table, and renders Markdown.

Python's regex classes are modelled over ASCII: `\s` is the six ASCII
whitespace characters, `[a-zA-Z]` the ASCII letters.  Strings are handled
as their underlying character lists; the bounded scanners that model
global regex substitution and `re.finditer` take an explicit step budget
that is always instantiated with more steps than the input has characters,
so the budget is never exhausted.
-/

/-- ASCII model of the regex class `\s` and of `str.strip`'s whitespace set:
space, tab, newline, carriage return, vertical tab, form feed. -/
def isWS (c : Char) : Bool :=
  c.toNat = 32 || c.toNat = 9 || c.toNat = 10 || c.toNat = 13 ||
    c.toNat = 11 || c.toNat = 12

/-- The regex fragment `(?:\t| )`: exactly tab or space. -/
def isTS (c : Char) : Bool := c.toNat = 32 || c.toNat = 9

/-- The regex class `[a-zA-Z]`. -/
def pyIsAlphaC (c : Char) : Bool :=
  (97 ≤ c.toNat && c.toNat ≤ 122) || (65 ≤ c.toNat && c.toNat ≤ 90)

/-- The regex class `[\r\n]`. -/
def isNL (c : Char) : Bool := c.toNat = 10 || c.toNat = 13

/-- `str.strip()` on a character list: drop whitespace from both ends. -/
def pstripCore (l : List Char) : List Char :=
  ((l.dropWhile isWS).reverse.dropWhile isWS).reverse

/-- `str.strip()`. -/
def pstrip (s : String) : String := String.mk (pstripCore s.data)

/-- `str.startswith(pre)`. -/
def pyStartsWith (s pre : String) : Bool := pre.data.isPrefixOf s.data

/-- Python `text.split('\n')` on a character list. -/
def splitLinesCore : List Char → List (List Char)
  | [] => [[]]
  | c :: rest =>
    if c = '\n' then [] :: splitLinesCore rest
    else
      match splitLinesCore rest with
      | [] => [[c]]
      | l :: ls => (c :: l) :: ls

/-- `re.split(r'\s+', l, maxsplit = n)` on a list that has no leading
whitespace: split off at most `n` maximal whitespace runs. -/
def splitWS : Nat → List Char → List (List Char)
  | 0, l => [l]
  | n + 1, l =>
    match l.dropWhile (fun c => !(isWS c)) with
    | [] => [l.takeWhile (fun c => !(isWS c))]
    | _ :: _ =>
      l.takeWhile (fun c => !(isWS c)) ::
        splitWS n ((l.dropWhile (fun c => !(isWS c))).dropWhile isWS)

/-- `JavadocToMarkdown._tokenize(text, r'\s+', limit)`: empty text yields
`limit` empty tokens; otherwise the stripped text is split on whitespace
runs with `maxsplit = limit - 1` and the result padded with empty strings
and truncated to exactly `limit` tokens. -/
def tokenize (text : String) (limit : Nat) : List String :=
  if text = "" then List.replicate limit ""
  else
    (((splitWS (limit - 1) (pstrip text).data).map String.mk) ++
      List.replicate limit "").take limit

/-- A doc tag as produced by `_get_doc_tags`: the identifier after `@` and
the remaining text of that tag block. -/
structure Tag where
  key : String
  value : String
deriving DecidableEq

/-- The render-time tag-group accumulator `assoc_buffer`: a Python dict
from group name to list of entries, modelled as an insertion-ordered
association list (dict keys preserve first-insertion order). -/
abbrev Buffer := List (String × List (Option String))

/-- `add_to_buffer` inside `process_tags`: append the value to the list of
an existing group, or append a fresh group at the end. -/
def addToBuffer : Buffer → String → Option String → Buffer
  | [], key, v => [(key, [v])]
  | (k, vs) :: rest, key, v =>
    if k = key then (k, vs ++ [v]) :: rest
    else (k, vs) :: addToBuffer rest key v

/-- `str.title()` restricted to ASCII letters: a letter directly after a
letter is lowercased, one after a non-letter (or at the start) is
uppercased. -/
def titleMap : Bool → List Char → List Char
  | _, [] => []
  | prev, c :: rest =>
    (if pyIsAlphaC c then (if prev then c.toLower else c.toUpper) else c) ::
      titleMap (pyIsAlphaC c) rest

/-- `str.title()`. -/
def pythonTitle (s : String) : String := String.mk (titleMap false s.data)

/-- `JavadocToMarkdown.process_tags`: classify one tag into the group
buffer following the if/elif policy chain of the source. -/
def processTags (tag : Tag) (buf : Buffer) : Buffer :=
  let key := tag.key
  let value := tag.value
  if key ∈ [ "abstract", "access", "author", "copyright", "exports",
      "license", "link", "package", "since", "static", "subpackage"] then
    addToBuffer buf (pythonTitle key) (some value)
  else if key ∈ [ "constructor", "deprecated", "private"] then
    addToBuffer buf (pythonTitle key) none
  else if key ∈ [ "exception", "throws"] then
    let tokens := tokenize value 2
    addToBuffer buf "Exceptions"
      (some ( "`" ++ tokens.getD 0 "" ++ "` — " ++ tokens.getD 1 ""))
  else if key = "param" then
    let tokens := tokenize value 2
    addToBuffer buf "Parameters"
      (some ( "`" ++ tokens.getD 0 "" ++ "` — " ++ tokens.getD 1 ""))
  else if key ∈ [ "return", "returns"] then
    addToBuffer buf "Returns" (some value)
  else if key = "see" then
    addToBuffer buf "See also" (some value)
  else if key = "this" then
    addToBuffer buf "This" (some ( "`" ++ value ++ "`"))
  else if key = "todo" then
    addToBuffer buf "To-do" (some value)
  else if key = "version" then
    addToBuffer buf "Version" (some value)
  else buf

/-- Every key literal that appears in some branch of `process_tags`. -/
def recognizedKeys : List String :=
  [ "abstract", "access", "author", "copyright", "exports", "license",
    "link", "package", "since", "static", "subpackage",
    "constructor", "deprecated", "private",
    "exception", "throws", "param", "return", "returns", "see", "this",
    "todo", "version"]

/-- The loop `for tag in tags: fn_add_tags_markdown(tag, assoc_buffer)`
in `_from_section`. -/
def processAllTags (buf : Buffer) (tags : List Tag) : Buffer :=
  tags.foldl (fun b t => processTags t b) buf

/-- Entries currently stored under a group name (first matching group, the
dict lookup). -/
def entriesOf : Buffer → String → List (Option String)
  | [], _ => []
  | (k1, vs) :: rest, k => if k1 = k then vs else entriesOf rest k

/-- Python `f"{entry}"` for an optional string: `None` prints as `"None"`. -/
def pyShow (e : Option String) : String :=
  match e with
  | some s => s
  | none => "None"

/-- `JavadocToMarkdown._from_tag_group`: a single `None` entry renders as a
bold label without a colon; otherwise the label gets a colon, a single
entry is placed inline and two or more entries become a sub-list. -/
def fromTagGroup (name : String) (entries : List (Option String)) : String :=
  "\n" ++
    (if entries = [none] then " * **" ++ name ++ "**"
     else " * **" ++ name ++ ":**" ++
       (if entries.length > 1 then
          String.join (entries.map (fun e => "\n" ++ "   * " ++ pyShow e))
        else if entries.length = 1 then " " ++ pyShow (entries.getD 0 none)
        else ""))

/-- Split a list at the first occurrence of `needle`, returning the text
before it and the text after it. -/
def splitAtSub (needle : List Char) : List Char → Option (List Char × List Char)
  | [] => if needle.isPrefixOf ([] : List Char) then some ([], []) else none
  | c :: rest =>
    if needle.isPrefixOf (c :: rest) then some ([], (c :: rest).drop needle.length)
    else (splitAtSub needle rest).map (fun p => (c :: p.1, p.2))

/-- The regex tail `[^{;]*(?:[{;]|$)`: consume characters up to and
including the first `{` or `;`, or up to the end of input. -/
def takeDecl : List Char → List Char × List Char
  | [] => ([], [])
  | c :: rest =>
    if c = '{' ∨ c = ';' then ([c], rest)
    else
      let p := takeDecl rest
      (c :: p.1, p.2)

/-- `re.finditer(r'/\*\*(.*?)\*/\s*([^{;]*(?:[{;]|$))', code, re.DOTALL)`:
the primary scan of `_get_sections`, yielding the raw
`(comment body, declaration candidate)` capture pairs left to right. -/
def findMatches : Nat → List Char → List (String × String)
  | 0, _ => []
  | fuel + 1, hay =>
    match splitAtSub [ '/', '*', '*'] hay with
    | none => []
    | some (_, afterOpen) =>
      match splitAtSub [ '*', '/'] afterOpen with
      | none => []
      | some (body, afterClose) =>
        let afterSkip := afterClose.dropWhile isWS
        let p := takeDecl afterSkip
        (String.mk body, String.mk p.1) :: findMatches fuel p.2

/-- One extracted section: the declaration line and the raw comment. -/
structure Section where
  line : String
  doc : String
deriving DecidableEq

/-- The body of the per-match loop in `_get_sections`: skip the match when
either capture is the empty string, skip when the stripped declaration
starts with `import`, otherwise normalize the comment body to start with a
`*` prefix and keep the section. -/
def processMatch (docComment codeSection : String) : Option Section :=
  if docComment = "" ∨ codeSection = "" then none
  else
    let stripped := pstrip codeSection
    if pyStartsWith stripped "import" then none
    else
      let doc :=
        if pyStartsWith (pstrip docComment) "*" then docComment
        else "* " ++ pstrip docComment
      some { line := stripped, doc := doc }

/-- The fallback's declaration search: the first line after the comment
that is non-blank after stripping, stripped. -/
def firstNonBlankLine (s : String) : Option String :=
  ((splitLinesCore s.data).find? (fun l => !(pstripCore l).isEmpty)).map
    (fun l => String.mk (pstripCore l))

/-- The fallback scan of `_get_sections`: re-scan with `/\*\*(.*?)\*/`
only and pair each non-empty comment body with the first non-blank line
that follows it (no import filter, no `*`-prefix normalization). -/
def fallbackSections : Nat → List Char → List Section
  | 0, _ => []
  | fuel + 1, hay =>
    match splitAtSub [ '/', '*', '*'] hay with
    | none => []
    | some (_, afterOpen) =>
      match splitAtSub [ '*', '/'] afterOpen with
      | none => []
      | some (body, afterClose) =>
        let here :=
          if body.isEmpty then []
          else
            match firstNonBlankLine (String.mk afterClose) with
            | some l => [{ line := l, doc := String.mk body : Section }]
            | none => []
        here ++ fallbackSections fuel afterClose

/-- `JavadocToMarkdown._get_sections`: the primary scan filtered through
the per-match loop body; when that yields nothing at all, the
whole-document fallback scan. -/
def getSections (code : String) : List Section :=
  let prim := (findMatches (code.data.length + 1) code.data).filterMap
    (fun p => processMatch p.1 p.2)
  if prim = [] then fallbackSections (code.data.length + 1) code.data else prim

/-- The separator regex of `_from_section`,
`^(?:\t| )*?\*(?:\t| )*?(?=@)` with `re.M`, tested against one line: the
first non-(tab/space) character must be `*` and the first
non-(tab/space) character after it must be `@`; the returned remainder
starts at the `@` (which the lookahead leaves unconsumed). -/
def lineTagRest (l : List Char) : Option (List Char) :=
  match l.dropWhile isTS with
  | '*' :: r2 =>
    match r2.dropWhile isTS with
    | '@' :: r3 => some ('@' :: r3)
    | _ => none
  | _ => none

/-- Reassemble the pieces of the doc comment between separator lines. -/
def splitDocGo : List (List Char) → List Char → List (List Char)
  | [], cur => [cur]
  | l :: ls, cur =>
    match lineTagRest l with
    | some r => (cur ++ [ '\n']) :: splitDocGo ls r
    | none => splitDocGo ls (cur ++ '\n' :: l)

/-- `re.split(r'^(?:\t| )*?\*(?:\t| )*?(?=@)', doc, flags=re.M)`: split the
raw comment into the description piece followed by one piece per tag. -/
def splitDocComment (doc : String) : List String :=
  (match splitLinesCore doc.data with
   | [] => [doc.data]
   | l :: ls =>
     match lineTagRest l with
     | some r => [] :: splitDocGo ls r
     | none => splitDocGo ls l).map String.mk

/-- `re.sub(r'^\s*\*\s*', '', line)`: drop a leading whitespace run, a
single `*` and the whitespace after it, when the first non-whitespace
character is `*`; otherwise leave the line unchanged. -/
def stripLeadStar (l : List Char) : List Char :=
  match l.dropWhile isWS with
  | '*' :: r => r.dropWhile isWS
  | _ => l

/-- `re.sub(r'^\s*/\*+\s*', '', line)`. -/
def stripOpenComment (l : List Char) : List Char :=
  match l.dropWhile isWS with
  | '/' :: r =>
    match r with
    | '*' :: _ => (r.dropWhile (fun c => c = '*')).dropWhile isWS
    | _ => l
  | _ => l

/-- `re.sub(r'\s*\*+/\s*$', '', line)`, working from the end of the
line. -/
def stripCloseComment (l : List Char) : List Char :=
  match l.reverse.dropWhile isWS with
  | '/' :: r =>
    match r with
    | '*' :: _ => ((r.dropWhile (fun c => c = '*')).dropWhile isWS).reverse
    | _ => l
  | _ => l

/-- `re.sub(r'\s+', ' ', line)`: collapse every whitespace run to one
space.  The flag records whether the previous character was whitespace. -/
def collapseWSAux : Bool → List Char → List Char
  | _, [] => []
  | prev, c :: rest =>
    if isWS c then
      if prev then collapseWSAux true rest else ' ' :: collapseWSAux true rest
    else c :: collapseWSAux false rest

/-- `JavadocToMarkdown._clean_line`: strip, then collapse whitespace. -/
def cleanLine (line : String) : String :=
  String.mk (collapseWSAux false (pstripCore line.data))

/-- `JavadocToMarkdown._clean_single_line`: `_clean_line`, then replace
the characters of `[\n\r\t]` by spaces. -/
def cleanSingleLine (line : String) : String :=
  String.mk ((cleanLine line).data.map
    (fun c => if c.toNat = 10 || c.toNat = 13 || c.toNat = 9 then ' ' else c))

/-- The opening tag `<\s*?code\s*?>` of `_replace_html_with_markdown`,
tried at the head of the list; returns the text after the `>`. -/
def tryCodeOpen (l : List Char) : Option (List Char) :=
  match l with
  | '<' :: r =>
    let r1 := r.dropWhile isWS
    if [ 'c', 'o', 'd', 'e'].isPrefixOf r1 then
      match (r1.drop 4).dropWhile isWS with
      | '>' :: rest => some rest
      | _ => none
    else none
  | _ => none

/-- The closing tag `<\s*?/\s*?code\s*?>`, tried at the head. -/
def tryCodeClose (l : List Char) : Option (List Char) :=
  match l with
  | '<' :: r =>
    match r.dropWhile isWS with
    | '/' :: r2 =>
      let r3 := r2.dropWhile isWS
      if [ 'c', 'o', 'd', 'e'].isPrefixOf r3 then
        match (r3.drop 4).dropWhile isWS with
        | '>' :: rest => some rest
        | _ => none
      else none
    | _ => none
  | _ => none

/-- The lazy capture `(.*?)` before the closing tag: scan forward for the
first position where the closing tag matches; `.` does not match a
newline, so a newline inside the content makes the whole match fail. -/
def findCodeClose : Nat → List Char → Option (List Char × List Char)
  | 0, _ => none
  | _, [] => none
  | fuel + 1, c :: rest =>
    match tryCodeClose (c :: rest) with
    | some after => some ([], after)
    | none =>
      if c = '\n' then none
      else (findCodeClose fuel rest).map (fun p => (c :: p.1, p.2))

/-- The global substitution of
`re.sub(r'<\s*?code\s*?>(.*?)<\s*?/\s*?code\s*?>', backticks, html)`:
left-to-right, non-overlapping. -/
def replaceCodeTags : Nat → List Char → List Char
  | 0, l => l
  | _, [] => []
  | fuel + 1, c :: rest =>
    match tryCodeOpen (c :: rest) with
    | some afterOpen =>
      match findCodeClose (afterOpen.length + 1) afterOpen with
      | some (content, afterClose) =>
        '`' :: content ++ '`' :: replaceCodeTags fuel afterClose
      | none => c :: replaceCodeTags fuel rest
    | none => c :: replaceCodeTags fuel rest

/-- `JavadocToMarkdown._replace_html_with_markdown`. -/
def replaceHtmlWithMarkdown (html : String) : String :=
  String.mk (replaceCodeTags (html.data.length + 1) html.data)

/-- Python `str.replace(needle, repl)`: global, left-to-right,
non-overlapping. -/
def replaceSub (needle repl : List Char) : Nat → List Char → List Char
  | 0, l => l
  | _, [] => []
  | fuel + 1, c :: rest =>
    if needle.isPrefixOf (c :: rest) then
      repl ++ replaceSub needle repl fuel ((c :: rest).drop needle.length)
    else c :: replaceSub needle repl fuel rest

/-- `JavadocToMarkdown._get_doc_description`: per line, strip the leading
`*`, comment-open and comment-close markers, keep the stripped line when
non-blank; join with spaces, clean, convert `<code>` pairs to backticks
and `<p>`/`</p>` to paragraph breaks. -/
def getDocDescription (docLines : String) : String :=
  let cleanLines := (splitLinesCore docLines.data).filterMap (fun line =>
    let l := stripCloseComment (stripOpenComment (stripLeadStar line))
    let s := pstripCore l
    if s.isEmpty then none else some (String.mk s))
  let descr := cleanLine (String.intercalate " " cleanLines)
  let descr := replaceHtmlWithMarkdown descr
  let d1 := replaceSub [ '<', 'p', '>'] [ '\n', '\n']
    (descr.data.length + 1) descr.data
  String.mk (replaceSub [ '<', '/', 'p', '>'] [ '\n', '\n'] (d1.length + 1) d1)

/-- The value clean-up
`re.sub(r'[\r\n]{1,2}(?:\t| )*?\*(?:\t| )*', nl_nl_indent, value)` of
`_get_doc_tags`: one or two newline characters, tabs/spaces up to a `*`
(the trailing lazy run consumes nothing) are replaced by two newlines and
five spaces. -/
def collapseTagWrap : Nat → List Char → List Char
  | 0, l => l
  | _, [] => []
  | fuel + 1, c :: rest =>
    if isNL c then
      let rest2 := match rest with
        | c2 :: r2 => if isNL c2 then r2 else rest
        | [] => rest
      match rest2.dropWhile isTS with
      | '*' :: r3 =>
        [ '\n', '\n', ' ', ' ', ' ', ' ', ' '] ++ collapseTagWrap fuel r3
      | _ => c :: collapseTagWrap fuel rest
    else c :: collapseTagWrap fuel rest

/-- `re.match(r'^(?:\t| )*?@([a-zA-Z]+)([\s\S]*)', line)`: after minimal
tabs/spaces a literal `@`, then a non-empty run of letters (the key),
then everything else (the raw value). -/
def tagLineMatch (l : List Char) : Option (List Char × List Char) :=
  match l.dropWhile isTS with
  | c :: r =>
    if c = '@' then
      if (r.takeWhile pyIsAlphaC).isEmpty then none
      else some (r.takeWhile pyIsAlphaC, r.dropWhile pyIsAlphaC)
    else none
  | [] => none

/-- The loop body of `JavadocToMarkdown._get_doc_tags` for one line: lines
that do not match the tag pattern are skipped; for matching lines the
value is stripped (empty when absent) and line-wrap artifacts are
collapsed, and the key is cleaned. -/
def docTagOfLine (line : String) : Option Tag :=
  match tagLineMatch line.data with
  | some (key, rest) =>
    let v0 := if rest.isEmpty then [] else pstripCore rest
    some { key := cleanSingleLine (String.mk key),
           value := String.mk (collapseTagWrap (v0.length + 1) v0) }
  | none => none

/-- `JavadocToMarkdown._get_doc_tags`: apply `docTagOfLine` to every tag
block, keeping the successes in order. -/
def getDocTags (docLines : List String) : List Tag :=
  docLines.filterMap docTagOfLine

/-- `JavadocToMarkdown._get_field_declaration`:
`re.sub(r'[{;]\s*$', '', line)` (drop one trailing `{` or `;` together
with trailing whitespace) followed by `_clean_single_line`. -/
def getFieldDeclaration (line : String) : String :=
  let r1 := line.data.reverse.dropWhile isWS
  let stripped :=
    match r1 with
    | c :: r2 => if c = '{' ∨ c = ';' then r2.reverse else line.data
    | [] => line.data
  cleanSingleLine (String.mk stripped)

/-- `JavadocToMarkdown._from_section` specialized to the `process_tags`
callback (the one `from_javadoc` passes): empty cleaned declaration means
no output; otherwise heading, optional description, and the tag groups in
buffer order. -/
def fromSection (sec : Section) (headingsLevel : Nat) : String :=
  let field := getFieldDeclaration sec.line
  if field = "" then ""
  else
    let parts := splitDocComment sec.doc
    let rawMain := parts.headD ""
    let rawTags := parts.tail
    let descr := getDocDescription rawMain
    let tags := getDocTags rawTags
    "\n\n" ++ String.mk (List.replicate (headingsLevel + 1) '#') ++
      " `" ++ field ++ "`" ++
      (if descr = "" then "" else "\n\n" ++ descr) ++
      (if tags.isEmpty then ""
       else "\n" ++ String.join
         ((processAllTags [] tags).map (fun p => fromTagGroup p.1 p.2)))

/-! ### Helper lemmas -/

theorem takeWhile_append_all (p : Char → Bool) (l1 l2 : List Char)
    (h : ∀ c ∈ l1, p c = true) :
    (l1 ++ l2).takeWhile p = l1 ++ l2.takeWhile p := by
  induction l1 with
  | nil => simp
  | cons c r ih =>
    have hc := h c (by simp)
    simp only [List.cons_append, List.takeWhile_cons, hc, if_true]
    rw [ih (fun x hx => h x (by simp [hx]))]

theorem dropWhile_append_all (p : Char → Bool) (l1 l2 : List Char)
    (h : ∀ c ∈ l1, p c = true) :
    (l1 ++ l2).dropWhile p = l2.dropWhile p := by
  induction l1 with
  | nil => simp
  | cons c r ih =>
    have hc := h c (by simp)
    simp only [List.cons_append, List.dropWhile_cons, hc, if_true]
    exact ih (fun x hx => h x (by simp [hx]))

theorem dropWhile_eq_self_hd (p : Char → Bool) (l : List Char)
    (h : ∀ c ∈ l.take 1, p c = false) : l.dropWhile p = l := by
  cases l with
  | nil => rfl
  | cons c r => simp [List.dropWhile_cons, h c (by simp)]

theorem pstripCore_eq_self (l : List Char)
    (h1 : ∀ c ∈ l.take 1, isWS c = false)
    (h2 : ∀ c ∈ l.reverse.take 1, isWS c = false) :
    pstripCore l = l := by
  unfold pstripCore
  rw [dropWhile_eq_self_hd _ _ h1, dropWhile_eq_self_hd _ _ h2,
    List.reverse_reverse]

theorem splitWS_zero (l : List Char) : splitWS 0 l = [l] := rfl

theorem splitWS_two (t w d : List Char)
    (ht : ∀ c ∈ t, isWS c = false)
    (hw : ∀ c ∈ w, isWS c = true) (hw0 : w ≠ [])
    (hd1 : ∀ c ∈ d.take 1, isWS c = false) :
    splitWS 1 (t ++ (w ++ d)) = [t, d] := by
  cases w with
  | nil => exact absurd rfl hw0
  | cons wc w' =>
    have hpre : (t ++ (wc :: w' ++ d)).takeWhile (fun c => !(isWS c)) = t := by
      rw [takeWhile_append_all _ _ _ (fun c hc => by simp [ht c hc])]
      simp [List.takeWhile_cons, hw wc (by simp)]
    have hrest : (t ++ (wc :: w' ++ d)).dropWhile (fun c => !(isWS c)) =
        wc :: w' ++ d := by
      rw [dropWhile_append_all _ _ _ (fun c hc => by simp [ht c hc])]
      simp [List.dropWhile_cons, hw wc (by simp)]
    have hdrop : (wc :: w' ++ d).dropWhile isWS = d := by
      have : ((wc :: w') ++ d).dropWhile isWS = d.dropWhile isWS :=
        dropWhile_append_all _ _ _ (fun c hc => hw c hc)
      simpa [dropWhile_eq_self_hd _ _ hd1] using this
    simp only [splitWS, hrest, hpre, hdrop, splitWS_zero]
    rfl

theorem splitWS_single (l : List Char) (h : ∀ c ∈ l, isWS c = false) :
    splitWS 1 l = [l] := by
  have hrest : l.dropWhile (fun c => !(isWS c)) = [] := by
    rw [List.dropWhile_eq_nil_iff]
    intro c hc
    simp [h c hc]
  have hpre : l.takeWhile (fun c => !(isWS c)) = l := by
    rw [List.takeWhile_eq_self_iff]
    intro c hc
    simp [h c hc]
  simp only [splitWS, hrest, hpre]

theorem string_mk_ne_empty (l : List Char) (h : l ≠ []) :
    String.mk l ≠ "" := by
  intro hc
  apply h
  exact congrArg String.data hc

theorem pstrip_eq_self (s : String)
    (h1 : ∀ c ∈ s.data.take 1, isWS c = false)
    (h2 : ∀ c ∈ s.data.reverse.take 1, isWS c = false) :
    pstrip s = s := by
  unfold pstrip
  rw [pstripCore_eq_self _ h1 h2]

theorem take_one_append (l1 l2 : List Char) (h : l1 ≠ []) :
    (l1 ++ l2).take 1 = l1.take 1 := by
  cases l1 with
  | nil => exact absurd rfl h
  | cons c r => simp

theorem tokenize_two_split (t w d : List Char)
    (ht : ∀ c ∈ t, isWS c = false) (ht0 : t ≠ [])
    (hw : ∀ c ∈ w, isWS c = true) (hw0 : w ≠ [])
    (hd1 : ∀ c ∈ d.take 1, isWS c = false)
    (hd2 : ∀ c ∈ d.reverse.take 1, isWS c = false) (hd0 : d ≠ []) :
    tokenize (String.mk (t ++ (w ++ d))) 2 = [String.mk t, String.mk d] := by
  have hne : String.mk (t ++ (w ++ d)) ≠ "" := by
    apply string_mk_ne_empty
    intro hc
    exact ht0 (List.append_eq_nil.mp hc).1
  unfold tokenize
  rw [if_neg hne]
  have hstrip : pstripCore (t ++ (w ++ d)) = t ++ (w ++ d) := by
    apply pstripCore_eq_self
    · rw [take_one_append _ _ ht0]
      intro c hc
      exact ht c (List.mem_of_mem_take hc)
    · rw [List.reverse_append, List.reverse_append, List.append_assoc,
        take_one_append _ _ (by simpa using hd0)]
      exact hd2
  have hdata : (pstrip (String.mk (t ++ (w ++ d)))).data =
      t ++ (w ++ d) := by
    unfold pstrip
    rw [show (String.mk (t ++ (w ++ d))).data = t ++ (w ++ d) from rfl, hstrip]
  rw [hdata, splitWS_two t w d ht hw hw0 hd1]
  rfl

theorem tokenize_two_single (v : String) (h : ∀ c ∈ v.data, isWS c = false) :
    tokenize v 2 = [v, ""] ∨ (v = "" ∧ tokenize v 2 = [ "", ""]) := by
  by_cases hv : v = ""
  · right
    refine ⟨hv, ?_⟩
    subst hv
    rfl
  · left
    unfold tokenize
    rw [if_neg hv]
    have hdata : (pstrip v).data = v.data := by
      unfold pstrip
      rw [pstripCore_eq_self _ (fun c hc => h c (List.mem_of_mem_take hc))
        (fun c hc => h c (by
          have := List.mem_of_mem_take hc
          exact List.mem_reverse.mp this))]
    rw [hdata, splitWS_single _ h]
    rfl

theorem processTags_marker (k v : String) (b : Buffer)
    (hk : k ∈ [ "constructor", "deprecated", "private"]) :
    processTags ⟨k, v⟩ b = addToBuffer b (pythonTitle k) none := by
  simp only [List.mem_cons, List.not_mem_nil, or_false] at hk
  rcases hk with rfl | rfl | rfl <;> simp [processTags]

theorem processTags_split_branch (k v : String) (b : Buffer)
    (hk : k ∈ [ "param", "exception", "throws"]) :
    processTags ⟨k, v⟩ b =
      addToBuffer b (if k = "param" then "Parameters" else "Exceptions")
        (some ( "`" ++ (tokenize v 2).getD 0 "" ++ "` — " ++
          (tokenize v 2).getD 1 "")) := by
  simp only [List.mem_cons, List.not_mem_nil, or_false] at hk
  rcases hk with rfl | rfl | rfl <;> simp [processTags]

theorem processTags_unrecognized (k v : String) (b : Buffer)
    (hk : k ∉ recognizedKeys) : processTags ⟨k, v⟩ b = b := by
  simp only [recognizedKeys, List.mem_cons, List.not_mem_nil, or_false,
    not_or] at hk
  obtain ⟨h1, h2, h3, h4, h5, h6, h7, h8, h9, h10, h11, h12, h13, h14, h15,
    h16, h17, h18, h19, h20, h21, h22, h23⟩ := hk
  simp [processTags, h1, h2, h3, h4, h5, h6, h7, h8, h9, h10, h11, h12, h13,
    h14, h15, h16, h17, h18, h19, h20, h21, h22, h23]

theorem addToBuffer_keys (b : Buffer) (k : String) (v : Option String) :
    ∃ ns, (addToBuffer b k v).map Prod.fst = b.map Prod.fst ++ ns := by
  induction b with
  | nil => exact ⟨[k], rfl⟩
  | cons p rest ih =>
    obtain ⟨k1, vs⟩ := p
    by_cases h : k1 = k
    · exact ⟨[], by simp [addToBuffer, h]⟩
    · obtain ⟨ns, hns⟩ := ih
      exact ⟨ns, by simp [addToBuffer, h, hns]⟩

theorem addToBuffer_entriesOf (b : Buffer) (k : String) (v : Option String)
    (q : String) :
    ∃ ext, entriesOf (addToBuffer b k v) q = entriesOf b q ++ ext := by
  induction b with
  | nil =>
    by_cases h : k = q
    · subst h
      exact ⟨[v], by simp [addToBuffer, entriesOf]⟩
    · exact ⟨[], by simp [addToBuffer, entriesOf, h]⟩
  | cons p rest ih =>
    obtain ⟨k1, vs⟩ := p
    by_cases h : k1 = k
    · subst h
      by_cases hq : k1 = q
      · subst hq
        exact ⟨[v], by simp [addToBuffer, entriesOf]⟩
      · exact ⟨[], by simp [addToBuffer, entriesOf, hq]⟩
    · by_cases hq : k1 = q
      · subst hq
        exact ⟨[], by simp [addToBuffer, entriesOf, h]⟩
      · obtain ⟨ext, hext⟩ := ih
        exact ⟨ext, by simp [addToBuffer, entriesOf, h, hq, hext]⟩

set_option maxHeartbeats 1000000 in
theorem processTags_extends (t : Tag) (b : Buffer) :
    (∃ ns, (processTags t b).map Prod.fst = b.map Prod.fst ++ ns) ∧
    (∀ q, ∃ ext, entriesOf (processTags t b) q = entriesOf b q ++ ext) := by
  obtain ⟨k, v⟩ := t
  simp only [processTags]
  split_ifs <;>
    first
      | exact ⟨addToBuffer_keys _ _ _, fun q => addToBuffer_entriesOf _ _ _ q⟩
      | exact ⟨⟨[], by simp⟩, fun q => ⟨[], by simp⟩⟩

theorem str_append_empty (s : String) : s ++ "" = s := by
  cases s with
  | mk l => show String.mk (l ++ []) = String.mk l
            rw [List.append_nil]

theorem string_data_eq_nil (s : String) (h : s.data = []) : s = "" := by
  cases s with
  | mk l => cases h
            rfl

/-! ### Claim theorems -/

/-- Claim C4: for every section, tag groups are emitted in the order their
group names were first added to the buffer, and entries within one group
appear in the order their tags appeared in the comment.  Formalized as an
append-only invariant of the buffer under `processAllTags` (the tag loop of
`_from_section`): processing further tags never reorders or removes
existing group names — it can only append new names at the end — and a
group's entry list only grows by appending at the end.  Since
`fromSection` emits the groups by walking the buffer in list order, group
emission order is exactly first-occurrence order and entries appear in
source order. -/
theorem claim_C4_order_preservation (ts : List Tag) (b : Buffer) :
    (∃ newKeys, (processAllTags b ts).map Prod.fst =
      b.map Prod.fst ++ newKeys) ∧
    (∀ q, ∃ ext, entriesOf (processAllTags b ts) q = entriesOf b q ++ ext) := by
  induction ts generalizing b with
  | nil =>
    exact ⟨⟨[], by simp [processAllTags]⟩,
      fun q => ⟨[], by simp [processAllTags]⟩⟩
  | cons t ts ih =>
    have hfold : processAllTags b (t :: ts) =
        processAllTags (processTags t b) ts := rfl
    obtain ⟨⟨ns1, h1⟩, h2⟩ := processTags_extends t b
    obtain ⟨⟨ns2, h3⟩, h4⟩ := ih (processTags t b)
    refine ⟨⟨ns1 ++ ns2, ?_⟩, fun q => ?_⟩
    · rw [hfold, h3, h1, List.append_assoc]
    · obtain ⟨e1, he1⟩ := h2 q
      obtain ⟨e2, he2⟩ := h4 q
      exact ⟨e1 ++ e2, by rw [hfold, he2, he1, List.append_assoc]⟩

/-- Claim C1 counterexample: the claim says classification is
case-insensitive, so a tag with key `Param` should land in the
`Parameters` group exactly like `param`; in the code the membership tests
are case-sensitive string comparisons, so `Param` matches no branch and
the buffer stays empty while `param` is classified. -/
theorem claim_C1_counterexample :
    processTags ⟨ "Param", "x y"⟩ [] = [] ∧
    processTags ⟨ "param", "x y"⟩ [] =
      [( "Parameters", [some "`x` — y"])] := by
  decide

/-- Claim C1 (amended): tag classification matches the tag key
case-sensitively against the policy-table literals; a key that is not
exactly one of the lowercase literals — in particular a key differing
from one only in letter case, such as `Param` or `RETURN` — matches no
branch of `process_tags` and leaves the buffer unchanged. -/
theorem claim_C1_theorem (t : Tag) (b : Buffer)
    (h : t.key ∉ recognizedKeys) : processTags t b = b := by
  obtain ⟨k, v⟩ := t
  exact processTags_unrecognized k v b h

/-- Claim C1 witness: the amended theorem applied to the key `RETURN`. -/
theorem claim_C1_witness : processTags ⟨ "RETURN", "z"⟩ [] = [] :=
  claim_C1_theorem ⟨ "RETURN", "z"⟩ [] (by decide)

/-- Claim C9: for every marker-key tag (`constructor`, `deprecated`,
`private`), any payload text after the key is discarded — the tag is
buffered with a null value regardless of its value string, so the same
buffer (and hence the same rendering) results for any two payloads. -/
theorem claim_C9_theorem (k v v2 : String) (b : Buffer)
    (hk : k ∈ [ "constructor", "deprecated", "private"]) :
    processTags ⟨k, v⟩ b = addToBuffer b (pythonTitle k) none ∧
    processTags ⟨k, v⟩ b = processTags ⟨k, v2⟩ b := by
  refine ⟨processTags_marker k v b hk, ?_⟩
  rw [processTags_marker k v b hk, processTags_marker k v2 b hk]

/-- Claim C9 witness: `@deprecated use foo instead` is buffered exactly
like a bare `@deprecated`. -/
theorem claim_C9_witness :
    processTags ⟨ "deprecated", "use foo instead"⟩ [] =
      addToBuffer [] (pythonTitle "deprecated") none ∧
    processTags ⟨ "deprecated", "use foo instead"⟩ [] =
      processTags ⟨ "deprecated", ""⟩ [] :=
  claim_C9_theorem "deprecated" "use foo instead" "" [] (by decide)

/-- Claim C6: a group holding exactly one marker-only (`None`) entry
renders as a bold label with no colon and no value text; in particular a
lone `@deprecated` tag renders as `**Deprecated**` with no trailing
colon. -/
theorem claim_C6_theorem (name v : String) :
    fromTagGroup name [none] = "\n" ++ ( " * **" ++ name ++ "**") ∧
    String.join ((processAllTags [] [⟨ "deprecated", v⟩]).map
      (fun p => fromTagGroup p.1 p.2)) = "\n * **Deprecated**" := by
  constructor
  · simp [fromTagGroup]
  · have hfold : processAllTags [] [⟨ "deprecated", v⟩] =
        processTags ⟨ "deprecated", v⟩ [] := rfl
    rw [hfold, processTags_marker "deprecated" v [] (by decide)]
    decide

/-- Claim C10: totality of the value split — `_tokenize` with limit 2
always returns exactly two tokens, and for a `param`, `exception` or
`throws` tag whose value has no whitespace (a single token, possibly
empty), `process_tags` buffers the entry with an empty description
instead of failing. -/
theorem claim_C10_theorem :
    (∀ text, (tokenize text 2).length = 2) ∧
    (∀ (k v : String) (b : Buffer), k ∈ [ "param", "exception", "throws"] →
      (∀ c ∈ v.data, isWS c = false) →
      processTags ⟨k, v⟩ b =
        addToBuffer b (if k = "param" then "Parameters" else "Exceptions")
          (some ( "`" ++ v ++ "` — "))) := by
  constructor
  · intro text
    unfold tokenize
    split_ifs
    · simp
    · simp only [List.length_take, List.length_append, List.length_map,
        List.length_replicate]
      omega
  · intro k v b hk hv
    rw [processTags_split_branch k v b hk]
    rcases tokenize_two_single v hv with h | ⟨hv0, h⟩
    · rw [h]
      simp only [List.getD_cons_zero, List.getD_cons_succ]
      rw [str_append_empty]
    · rw [h, hv0]
      simp only [List.getD_cons_zero, List.getD_cons_succ]
      rw [str_append_empty]

/-- Claim C10 witness: a bare `@param x` is buffered as an entry with an
empty description. -/
theorem claim_C10_witness :
    processTags ⟨ "param", "x"⟩ [] =
      addToBuffer []
        (if ( "param" : String) = "param" then "Parameters" else "Exceptions")
        (some ( "`" ++ "x" ++ "` — ")) :=
  claim_C10_theorem.2 "param" "x" [] (by decide) (by decide)

/-- Claim C5: for every `param` tag whose value is a leading
whitespace-delimited token followed by a description (token, a whitespace
run, then a description that neither starts nor ends in whitespace),
`process_tags` buffers the entry `` `token` — description `` under the
`Parameters` group; `exception` and `throws` tags get the same split and
format under the `Exceptions` group. -/
theorem claim_C5_theorem (b : Buffer) (k t w d : String)
    (hk : k ∈ [ "param", "exception", "throws"])
    (ht : ∀ c ∈ t.data, isWS c = false) (ht0 : t ≠ "")
    (hw : ∀ c ∈ w.data, isWS c = true) (hw0 : w ≠ "")
    (hd1 : ∀ c ∈ d.data.take 1, isWS c = false)
    (hd2 : ∀ c ∈ d.data.reverse.take 1, isWS c = false) (hd0 : d ≠ "") :
    processTags ⟨k, t ++ w ++ d⟩ b =
      addToBuffer b (if k = "param" then "Parameters" else "Exceptions")
        (some ( "`" ++ t ++ "` — " ++ d)) := by
  rw [processTags_split_branch k (t ++ w ++ d) b hk]
  have hdat : t ++ w ++ d = String.mk (t.data ++ (w.data ++ d.data)) := by
    have h0 : t ++ w ++ d = String.mk (t.data ++ w.data ++ d.data) := rfl
    rw [h0, List.append_assoc]
  have ht0' : t.data ≠ [] := fun hc => ht0 (string_data_eq_nil t hc)
  have hw0' : w.data ≠ [] := fun hc => hw0 (string_data_eq_nil w hc)
  have hd0' : d.data ≠ [] := fun hc => hd0 (string_data_eq_nil d hc)
  rw [hdat, tokenize_two_split t.data w.data d.data ht ht0' hw hw0' hd1 hd2 hd0']
  simp only [List.getD_cons_zero, List.getD_cons_succ]

/-- Claim C5 witness: `@param x the input value` is buffered as
`` `x` — the input value `` under the `Parameters` group. -/
theorem claim_C5_witness :
    processTags ⟨ "param", "x" ++ " " ++ "the input value"⟩ [] =
      addToBuffer []
        (if ( "param" : String) = "param" then "Parameters" else "Exceptions")
        (some ( "`" ++ "x" ++ "` — " ++ "the input value")) :=
  claim_C5_theorem [] "param" "x" " " "the input value" (by decide)
    (by decide) (by decide) (by decide) (by decide) (by decide) (by decide)
    (by decide)

/-- Claim C7: rendering is deterministic — rendering the same Section
(declaration text plus raw comment) at the same base heading level twice
yields byte-identical Markdown fragments.  `fromSection` is a pure
function of the section and the level, so two renders of equal inputs are
equal strings. -/
theorem claim_C7_theorem (s1 s2 : Section) (lvl : Nat) (h : s1 = s2) :
    fromSection s1 lvl = fromSection s2 lvl := by
  rw [h]

/-- Claim C7 witness: two renders of the same concrete section agree. -/
theorem claim_C7_witness :
    fromSection
      ⟨ "int add(int a, int b) \x7b",
        "* Adds two numbers.\n * @param a first\n * @return sum"⟩ 1 =
    fromSection
      ⟨ "int add(int a, int b) \x7b",
        "* Adds two numbers.\n * @param a first\n * @return sum"⟩ 1 :=
  claim_C7_theorem _ _ 1 rfl

/-- Claim C2 counterexample: a document whose only doc-comment block is
immediately followed by an `import` statement.  The primary path skips
the block (import filter), which leaves the section list empty, so the
whole-document fallback runs — and the fallback has no import filter: it
emits a section whose declaration is the import line.  The claim's
"zero sections including the fallback path" is therefore false. -/
theorem claim_C2_counterexample :
    getSections "/** d */\nimport a;" =
      [{ line := "import a;", doc := " d " }] ∧
    getSections "/** d */\nimport a;" ≠ [] := by
  decide

/-- Claim C2 (amended): a documentation-comment block immediately
followed by an `import` statement contributes no section on the primary
extraction path — the per-match loop body discards every match whose
stripped declaration candidate starts with `import`.  When the primary
path found nothing at all, however, the whole-document fallback re-scan
applies no import filter and can emit a section for such a block. -/
theorem claim_C2_theorem (g1 g2 : String)
    (h : pyStartsWith (pstrip g2) "import" = true) :
    processMatch g1 g2 = none := by
  unfold processMatch
  by_cases h1 : g1 = "" ∨ g2 = ""
  · rw [if_pos h1]
  · rw [if_neg h1]
    simp [h]

/-- Claim C2 witness: the primary-path match for the counterexample
document is discarded. -/
theorem claim_C2_witness :
    pyStartsWith (pstrip "  import a;") "import" = true ∧
    processMatch " d " "  import a;" = none :=
  ⟨by decide, claim_C2_theorem " d " "  import a;" (by decide)⟩

/-- Claim C3 counterexample: the claim says a match whose comment body is
whitespace-only after trimming yields no section; in the code the
emptiness test runs before trimming (`if not doc_comment`), so the
one-space comment body of `/** */x;` passes the test and a section is
appended (with the body normalized to `* `). -/
theorem claim_C3_counterexample :
    getSections "/** */x;" = [{ line := "x;", doc := "* " }] ∧
    getSections "/** */x;" ≠ [] := by
  decide

/-- Claim C3 (amended): the extractor discards a primary-pattern match
when either captured half is the empty string — the test happens before
any trimming.  A whitespace-only non-empty comment body is therefore not
discarded (it is normalized to `* ` and a section is appended); a
whitespace-only non-empty declaration candidate cannot be produced by the
primary pattern, whose `\s*` consumes the whitespace before the capture. -/
theorem claim_C3_theorem (g1 g2 : String) (h : g1 = "" ∨ g2 = "") :
    processMatch g1 g2 = none := by
  unfold processMatch
  rw [if_pos h]

/-- Claim C3 witness: a match with an empty comment body is discarded. -/
theorem claim_C3_witness : processMatch "" "x;" = none :=
  claim_C3_theorem "" "x;" (Or.inl rfl)

theorem alpha_not_ws (c : Char) (h : pyIsAlphaC c = true) : isWS c = false := by
  simp only [pyIsAlphaC, Bool.or_eq_true, Bool.and_eq_true,
    decide_eq_true_eq] at h
  simp only [isWS, Bool.or_eq_false_iff, decide_eq_false_iff_not]
  rcases h with ⟨h1, h2⟩ | ⟨h1, h2⟩ <;>
    refine ⟨⟨⟨⟨⟨?_, ?_⟩, ?_⟩, ?_⟩, ?_⟩, ?_⟩ <;> omega

theorem collapseWSAux_id (b : Bool) (l : List Char)
    (h : ∀ c ∈ l, isWS c = false) : collapseWSAux b l = l := by
  induction l generalizing b with
  | nil => rfl
  | cons c r ih =>
    simp [collapseWSAux, h c (by simp),
      ih false (fun x hx => h x (by simp [hx]))]

theorem map_nlrt_id (l : List Char) (h : ∀ c ∈ l, isWS c = false) :
    l.map (fun c =>
      if c.toNat = 10 || c.toNat = 13 || c.toNat = 9 then ' ' else c) = l := by
  induction l with
  | nil => rfl
  | cons c r ih =>
    have hc := h c (by simp)
    have h9 : c.toNat ≠ 9 := fun he => by simp [isWS, he] at hc
    have h10 : c.toNat ≠ 10 := fun he => by simp [isWS, he] at hc
    have h13 : c.toNat ≠ 13 := fun he => by simp [isWS, he] at hc
    rw [List.map_cons, ih (fun x hx => h x (by simp [hx]))]
    congr 1
    rw [if_neg]
    simp [h9, h10, h13]

theorem cleanSingleLine_alpha (l : List Char)
    (h : ∀ c ∈ l, pyIsAlphaC c = true) :
    cleanSingleLine (String.mk l) = String.mk l := by
  have hws : ∀ c ∈ l, isWS c = false := fun c hc => alpha_not_ws c (h c hc)
  have h1 : cleanLine (String.mk l) = String.mk l := by
    unfold cleanLine
    rw [show (String.mk l).data = l from rfl,
      pstripCore_eq_self l (fun c hc => hws c (List.mem_of_mem_take hc))
        (fun c hc =>
          hws c (List.mem_reverse.mp (List.mem_of_mem_take hc))),
      collapseWSAux_id false l hws]
  unfold cleanSingleLine
  rw [h1, show (String.mk l).data = l from rfl, map_nlrt_id l hws]

theorem tagLineMatch_key (l key rest : List Char)
    (h : tagLineMatch l = some (key, rest)) :
    key ≠ [] ∧ ∀ c ∈ key, pyIsAlphaC c = true := by
  unfold tagLineMatch at h
  split at h
  · rename_i c r heq
    by_cases hc : c = '@'
    · rw [if_pos hc] at h
      by_cases he : (r.takeWhile pyIsAlphaC).isEmpty
      · rw [if_pos he] at h
        exact absurd h (by simp)
      · rw [if_neg he] at h
        have hk : key = r.takeWhile pyIsAlphaC := by
          have h2 := (Option.some.injEq _ _).mp h
          exact ((Prod.mk.injEq _ _ _ _).mp h2).1.symm
        refine ⟨?_, ?_⟩
        · rw [hk]
          intro hn
          rw [hn] at he
          exact he rfl
        · intro x hx
          rw [hk] at hx
          exact List.mem_takeWhile_imp hx
    · rw [if_neg hc] at h
      exact absurd h (by simp)
  · exact absurd h (by simp)

theorem docTagOfLine_key (line : String) (t : Tag)
    (h : docTagOfLine line = some t) :
    ∃ key rest, tagLineMatch line.data = some (key, rest) ∧
      t.key = cleanSingleLine (String.mk key) := by
  unfold docTagOfLine at h
  split at h
  · rename_i key rest heq
    refine ⟨key, rest, heq, ?_⟩
    have h2 := (Option.some.injEq _ _).mp h
    rw [← h2]
  · exact absurd h (by simp)

/-- Claim C8: every tag produced by tag extraction has a non-empty key
made of alphabetic characters — `_get_doc_tags` never yields a tag with
an empty key, because a line whose text after the optional indent does
not match `@` followed by at least one letter is skipped rather than
emitted. -/
theorem claim_C8_theorem (ls : List String) (t : Tag)
    (ht : t ∈ getDocTags ls) :
    t.key ≠ "" ∧ t.key.data.all pyIsAlphaC = true := by
  unfold getDocTags at ht
  obtain ⟨line, hmem, hf⟩ := List.mem_filterMap.mp ht
  obtain ⟨key, rest, htm, hkey⟩ := docTagOfLine_key line t hf
  obtain ⟨hk0, hall⟩ := tagLineMatch_key line.data key rest htm
  rw [hkey, cleanSingleLine_alpha key hall]
  refine ⟨string_mk_ne_empty key hk0, ?_⟩
  rw [show (String.mk key).data = key from rfl]
  exact List.all_eq_true.mpr hall

/-- Claim C8 witness: the theorem applied to the tag extracted from the
block `@param x`. -/
theorem claim_C8_witness :
    (⟨ "param", "x"⟩ : Tag).key ≠ "" ∧
    (⟨ "param", "x"⟩ : Tag).key.data.all pyIsAlphaC = true :=
  claim_C8_theorem [ "@param x"] ⟨ "param", "x"⟩ (by decide)
